import Mathlib

/-!
# WARG computer-vision: the pipeline orchestrator of `main.cpp`

A shallow embedding of `src/main.cpp`: the shared pipeline state, the detection
task `worker`, the stage loops `read_images`, `assign_workers` and `output`, the
console (`commands`, `handle_input`) and the start-up glue `handle_args`.

Conventions of the embedding.

* The globals of `main.cpp` are the fields of `State`; a function that mutates
  them is a function `State → State`.  What a function prints or logs is returned
  next to the new state as a list of `Event`s.
* A `queue<T>` is a `List T`: `push` appends at the end, `front` is the head,
  `pop` drops the head.
* Pointers to frames are the frames themselves; `process_frame`, which mutates
  the frame it is given, is a function `Frame → Frame`.
* Collaborators whose code is in other translation units (`TargetIdentifier`,
  `ImageImport`, `MetadataInput`, `Frame`, `Target`) are parameters or small
  types modelled from the specification, each marked as such.
* `int frameCount` is a 32-bit integer: `++frameCount` wraps around in two's
  complement (`wrapInt`), as it does on the targets the program is built for.
  `int workers` is incremented and decremented in pairs by `worker` and is kept as an
  `Int`; sizes (`size_t`) are `Nat`.  `double aveFrameTime` is `ℚ`: the average is
  studied over exact rational arithmetic.
* Sleeping has no effect on the state and is left out.
-/

namespace WargCV

/-! ## Data model -/

/-- Modelled from the spec: a Target (`target.h` is not among the sources) is one
recognised object of interest with an opaque payload. -/
structure Target where
  payload : Nat
deriving DecidableEq, Repr

/-- Modelled from the spec: a Frame (`frame.h` is not among the sources) is an image
payload (`get_img()`, whose emptiness `worker` asserts on) and the ordered sequence
of detected objects (`get_objects()`). -/
structure Frame where
  img : List Nat
  objects : List Target
deriving DecidableEq, Repr

/-- `const int BUFFER_SIZE = 20;` -/
def BUFFER_SIZE : Nat := 20

/-- Severity levels of `boost::log::trivial`, in increasing order. -/
inductive Severity where
  | trace | debug | info | warning | error | fatal
deriving DecidableEq, Repr

/-- Position of a severity level in the order of `boost::log::trivial`. -/
def Severity.rank : Severity → Nat
  | .trace => 0
  | .debug => 1
  | .info => 2
  | .warning => 3
  | .error => 4
  | .fatal => 5

/-- A handler posted to `ioService`: one of the functions of `main.cpp`, `worker`
bound to its frame. -/
inductive Task where
  | read_images
  | assign_workers
  | output
  | worker (f : Frame)
deriving DecidableEq, Repr

/-- The globals of `main.cpp`, with the sinks they write to (`out.txt`, the saved
frames), the handlers posted to `ioService`, the size of `threadpool`, the filter of
the logging core and the number of `next_frame` calls made on `importer`. -/
structure State where
  in_buffer : List Frame
  out_buffer : List Target
  intermediate_buffer : List Frame
  workers : Int
  readingFrames : Bool
  outputDir : String
  intermediate : Bool
  processors : Nat
  aveFrameTime : ℚ
  frameCount : Int
  posted : List Task
  threads : Nat
  ioStopped : Bool
  filter : Severity
  fetched : Nat
  sink : List Target
  saved : List (Frame × String)
deriving DecidableEq

/-- The state `main` enters its console loop in: the initialisers of the globals,
`processors` as reported by the hardware, the log filter as set by `init`, nothing
written yet. -/
def initial (processors : Nat) (filter : Severity) (outputDir : String)
    (intermediate : Bool) : State :=
  { in_buffer := [], out_buffer := [], intermediate_buffer := [], workers := 0,
    readingFrames := false, outputDir := outputDir, intermediate := intermediate,
    processors := processors, aveFrameTime := 1000, frameCount := 0, posted := [],
    threads := 0, ioStopped := false, filter := filter, fetched := 0, sink := [],
    saved := [] }

/-- What a function of the console prints, logs or runs. `exec` is a ghost event: it
records that the `execute` closure of the named command was called with the given
arguments. -/
inductive Event where
  | cout (text : String)
  | log (sev : Severity) (msg : String)
  | exec (name : String) (args : List String)
deriving DecidableEq, Repr

/-- `BOOST_LOG_TRIVIAL(sev) << msg`: the record is emitted when `sev` passes the
filter of the logging core (`severity >= filter`). -/
def logTrivial (s : State) (sev : Severity) (msg : String) : List Event :=
  if s.filter.rank ≤ sev.rank then [Event.log sev msg] else []

/-! ## RateEstimator and the detection task -/

/-- The largest value of the 32-bit `int`. -/
def INT_MAX : Int := 2147483647

/-- An integer brought into the range of the 32-bit `int`, `-2147483648` to
`2147483647`, by two's-complement wrap-around. -/
def wrapInt (x : Int) : Int :=
  (x + 2147483648) % 4294967296 - 2147483648

/-- Line 100 of `worker`:
`aveFrameTime = (latency + aveFrameTime*frameCount)/++frameCount`, the product read
with the count before the increment and the quotient taken by the count after it.
`frameCount` is an `int`: the increment past `INT_MAX` wraps to `-2147483648`. -/
def updateAverage (p : ℚ × Int) (latency : ℚ) : ℚ × Int :=
  ((latency + p.1 * (p.2 : ℚ)) / ((wrapInt (p.2 + 1) : Int) : ℚ), wrapInt (p.2 + 1))

/-- `worker(Frame* f)`. `process_frame` is `identifier.process_frame`, `latency` the
elapsed time the two clock readings give. The result is `none` when the assertion
on the image payload fails. -/
def worker (process_frame : Frame → Frame) (latency : ℚ) (f : Frame) (s : State) :
    Option State :=
  let s1 := { s with workers := s.workers + 1 }
  if f.img.isEmpty then none
  else
    let f1 := process_frame f
    let s2 :=
      if s1.intermediate && decide (f1.objects.length > 0) then
        { s1 with intermediate_buffer := s1.intermediate_buffer ++ [f1] }
      else s1
    let s3 := { s2 with workers := s2.workers - 1 }
    let p := updateAverage (s3.aveFrameTime, s3.frameCount) latency
    some { s3 with aveFrameTime := p.1, frameCount := p.2 }

/-! ## Stage loops -/

/-- One pass through the body of the `while` of `read_images`; `next_frame n` is what
the `n`-th call of `importer->next_frame()` returns (`none` for a null pointer). -/
def read_images_iter (next_frame : Nat → Option Frame) (s : State) : State :=
  if s.in_buffer.length < BUFFER_SIZE then
    match next_frame s.fetched with
    | some f => { s with fetched := s.fetched + 1, in_buffer := s.in_buffer ++ [f] }
    | none => { s with fetched := s.fetched + 1, readingFrames := false }
  else s

/-- `read_images()`: the loop runs while `readingFrames`; `none` when the fuel does
not suffice. -/
def read_images (next_frame : Nat → Option Frame) : Nat → State → Option State
  | 0, _ => none
  | fuel + 1, s =>
    if s.readingFrames then read_images next_frame fuel (read_images_iter next_frame s)
    else some s

/-- The loop condition of `assign_workers`. -/
def assign_workers_cond (s : State) : Bool :=
  s.readingFrames || decide (s.in_buffer.length > 0)

/-- One pass through the body of the `while` of `assign_workers`. -/
def assign_workers_iter (s : State) : State :=
  match s.in_buffer with
  | current :: rest =>
    { s with posted := s.posted ++ [Task.worker current], in_buffer := rest }
  | [] => s

/-- `assign_workers()`, with fuel. -/
def assign_workers : Nat → State → Option State
  | 0, _ => none
  | fuel + 1, s =>
    if assign_workers_cond s then assign_workers fuel (assign_workers_iter s)
    else some s

/-- The loop condition of `output`. -/
def output_cond (s : State) : Bool :=
  s.readingFrames || decide (s.out_buffer.length > 0) ||
    decide (s.intermediate_buffer.length > 0) || decide (s.workers > 0)

/-- One pass through the body of the `while` of `output`: the front of `out_buffer`
is appended to `out.txt`, the front of `intermediate_buffer` is saved to
`outputDir`. -/
def output_iter (s : State) : State :=
  let s1 :=
    match s.out_buffer with
    | t :: rest => { s with sink := s.sink ++ [t], out_buffer := rest }
    | [] => s
  match s1.intermediate_buffer with
  | f :: rest =>
    { s1 with saved := s1.saved ++ [(f, s1.outputDir)], intermediate_buffer := rest }
  | [] => s1

/-- `output()`, with fuel; on leaving the loop it stops `ioService`. -/
def output : Nat → State → Option State
  | 0, _ => none
  | fuel + 1, s =>
    if output_cond s then output fuel (output_iter s)
    else some { s with ioStopped := true }

/-- `queue_work(func)`: post the handler, then grow the pool to `processors`
threads. -/
def queue_work (t : Task) (s : State) : State :=
  { s with posted := s.posted ++ [t], threads := max s.threads s.processors }

/-! ## The console -/

/-- The class `Command`: a name, a description, the names of the arguments and the
closure to run. The closure returns the new state and what it printed or logged. -/
structure Command where
  name : String
  desc : String
  args : List String
  execute : List String → State → State × List Event

/-- The name, description and argument names of the entries of `commands`, in table
order. The closure of `help` walks the table it is an entry of; the embedding gives
it this list. -/
def commandTable : List (String × String × List String) :=
  [("help", "display this help message", []),
   ("log.info", "sets log level to info", []),
   ("log.debug", "sets log level to debug", []),
   ("log.error", "sets log level to error", []),
   ("frames.start", "starts fetching frames", []),
   ("frames.stop", "starts fetching frames", [])]

/-- The length `space.resize` is called with in `help`:
`20 - cmd.name.length() + 1 + join(cmd.args, " ").length()`, computed in `size_t`. -/
def helpPad (name joined : String) : Nat :=
  (20 + 2 ^ 64 - name.utf8ByteSize % 2 ^ 64 + 1 + joined.utf8ByteSize) % 2 ^ 64

/-- The line `help` prints for one command. -/
def helpLine (c : String × String × List String) : Event :=
  Event.cout (c.1 ++ " " ++ " ".intercalate c.2.2 ++
    String.mk (List.replicate (helpPad c.1 (" ".intercalate c.2.2)) ' ') ++ " - " ++ c.2.1 ++ "\n")

/-- The closure of `help`. -/
def execute_help (_args : List String) (s : State) : State × List Event :=
  (s, Event.cout "Commands:\n\n" :: commandTable.map helpLine)

/-- The closure of `log.info`. -/
def execute_log_info (_args : List String) (s : State) : State × List Event :=
  ({ s with filter := Severity.info }, [])

/-- The closure of `log.debug`. -/
def execute_log_debug (_args : List String) (s : State) : State × List Event :=
  ({ s with filter := Severity.debug }, [])

/-- The closure of `log.error`. -/
def execute_log_error (_args : List String) (s : State) : State × List Event :=
  ({ s with filter := Severity.error }, [])

/-- The closure of `frames.start`. -/
def execute_frames_start (_args : List String) (s : State) : State × List Event :=
  if !s.readingFrames then
    ({ queue_work Task.read_images s with readingFrames := true }, [])
  else
    (s, logTrivial s Severity.error "Frames are already being fetched")

/-- The closure of `frames.stop`. -/
def execute_frames_stop (_args : List String) (s : State) : State × List Event :=
  if s.readingFrames then
    ({ s with readingFrames := false }, [])
  else
    (s, logTrivial s Severity.error "Frames are not being fetched")

/-- The table `vector<Command> commands`. -/
def commands : List Command :=
  [⟨"help", "display this help message", [], execute_help⟩,
   ⟨"log.info", "sets log level to info", [], execute_log_info⟩,
   ⟨"log.debug", "sets log level to debug", [], execute_log_debug⟩,
   ⟨"log.error", "sets log level to error", [], execute_log_error⟩,
   ⟨"frames.start", "starts fetching frames", [], execute_frames_start⟩,
   ⟨"frames.stop", "starts fetching frames", [], execute_frames_stop⟩]

/-- The tokens `boost::split` produces for a predicate `sep` with token compression
off (the default): a new token starts after every separator, so `k` separators give
`k + 1` tokens, empty ones included. -/
def splitChars (sep : Char → Bool) : List Char → List (List Char)
  | [] => [[]]
  | c :: cs =>
    if sep c then [] :: splitChars sep cs
    else
      match splitChars sep cs with
      | t :: ts => (c :: t) :: ts
      | [] => [[c]]

/-- `boost::split(args, input, boost::is_any_of(" "))`. -/
def boost_split (input : String) : List String :=
  (splitChars (fun c => c == ' ') input.data).map String.mk

/-- The usage text `handle_input` prints for a command. -/
def usage (cmd : Command) : List Event :=
  [Event.cout "Usage: \n",
   Event.cout (cmd.name ++ " " ++ " ".intercalate cmd.args ++ " - " ++ cmd.desc ++ "\n")]

/-- The body of the `for (Command cmd : commands)` loop of `handle_input`, on the
state, the flag `valid` and the events so far. -/
def handle_command (args : List String) (acc : State × Bool × List Event) (cmd : Command) :
    State × Bool × List Event :=
  if 0 < args.length ∧ args.head? = some cmd.name then
    if args.length - 1 = cmd.args.length then
      let r := cmd.execute args.tail acc.1
      (r.1, true,
        acc.2.2 ++ logTrivial acc.1 Severity.info ("Executing command: " ++ cmd.name) ++
          [Event.exec cmd.name args.tail] ++ r.2)
    else (acc.1, acc.2.1, acc.2.2 ++ usage cmd)
  else acc

/-- The fallback of `handle_input`: `commands[0].execute(vector<string>())`. -/
def fallback (s : State) : State × List Event :=
  match commands.head? with
  | some cmd =>
    let r := cmd.execute [] s
    (r.1, logTrivial s Severity.info ("Executing command: " ++ cmd.name) ++
      [Event.exec cmd.name []] ++ r.2)
  | none => (s, [])

/-- The part of `handle_input` after the split: the loop over `commands` and the
fallback. `eof` is `cin.eof()` after the `getline`. -/
def dispatch (args : List String) (eof : Bool) (s : State) : State × List Event :=
  let r := commands.foldl (handle_command args) (s, false, [Event.cout "wargcv$ "])
  if !r.2.1 && !eof then
    let q := fallback r.1
    (q.1, r.2.2 ++ q.2)
  else (r.1, r.2.2)

/-- `handle_input()`, on the line `getline` read and the end-of-input flag it left. -/
def handle_input (input : String) (eof : Bool) (s : State) : State × List Event :=
  dispatch (boost_split input) eof s

/-- The commands a list of events records as executed, in order. -/
def executed : List Event → List (String × List String)
  | [] => []
  | Event.exec name args :: rest => (name, args) :: executed rest
  | _ :: rest => executed rest

/-- Whitespace as `std::isspace` sees it in the C locale. -/
def isWhitespace (c : Char) : Bool :=
  c == ' ' || c == '\t' || c == '\n' || c == '\x0b' || c == '\x0c' || c == '\r'

/-- Splitting on whitespace as the specification words it: the maximal runs of
characters that are not whitespace. -/
def whitespaceTokens (input : String) : List String :=
  ((splitChars isWhitespace input.data).filter (fun t => !t.isEmpty)).map String.mk

/-- The line made of the given tokens with exactly one space between neighbours and
nothing before the first or after the last. -/
def singleSpaceForm : List String → String
  | [] => ""
  | [t] => t
  | t :: u :: rest => t ++ " " ++ singleSpaceForm (u :: rest)

/-! ## Runs of the pipeline -/

/-- The frames of a list run through `worker` one after the other, each with the
latency measured for it. -/
def runWorkers (process_frame : Frame → Frame) : List (Frame × ℚ) → State → Option State
  | [], s => some s
  | job :: rest, s =>
    match worker process_frame job.2 job.1 s with
    | some s1 => runWorkers process_frame rest s1
    | none => none

/-- The frames run through `worker`, then `output` until it returns. -/
def detectThenOutput (process_frame : Frame → Frame) (fuel : Nat)
    (jobs : List (Frame × ℚ)) (s : State) : Option State :=
  match runWorkers process_frame jobs s with
  | some s1 => output fuel s1
  | none => none

/-- One atomic step of a handler that was posted to `ioService`: a pass through the
loop of a stage (its condition holding), the return of a stage whose condition
fails, or a whole `worker` call. Only posted handlers move. -/
inductive TaskStep (process_frame : Frame → Frame) (next_frame : Nat → Option Frame) :
    State → State → Prop where
  | read_images_iter (s : State) :
      Task.read_images ∈ s.posted → s.readingFrames = true →
      TaskStep process_frame next_frame s (read_images_iter next_frame s)
  | read_images_return (s : State) :
      Task.read_images ∈ s.posted → s.readingFrames = false →
      TaskStep process_frame next_frame s
        { s with posted := s.posted.erase Task.read_images }
  | assign_workers_iter (s : State) :
      Task.assign_workers ∈ s.posted → assign_workers_cond s = true →
      TaskStep process_frame next_frame s (assign_workers_iter s)
  | assign_workers_return (s : State) :
      Task.assign_workers ∈ s.posted → assign_workers_cond s = false →
      TaskStep process_frame next_frame s
        { s with posted := s.posted.erase Task.assign_workers }
  | output_iter (s : State) :
      Task.output ∈ s.posted → output_cond s = true →
      TaskStep process_frame next_frame s (output_iter s)
  | output_return (s : State) :
      Task.output ∈ s.posted → output_cond s = false →
      TaskStep process_frame next_frame s
        { s with posted := s.posted.erase Task.output, ioStopped := true }
  | worker (s s1 : State) (f : Frame) (latency : ℚ) :
      Task.worker f ∈ s.posted →
      worker process_frame latency f { s with posted := s.posted.erase (Task.worker f) }
        = some s1 →
      TaskStep process_frame next_frame s s1

/-- One atomic step of the system: a console command, a pass through the loop of
`read_images` or of `assign_workers` (whether or not the stage was posted), or a
step of a posted handler. -/
inductive Step (process_frame : Frame → Frame) (next_frame : Nat → Option Frame) :
    State → State → Prop where
  | command (s : State) (input : String) (eof : Bool) :
      Step process_frame next_frame s (handle_input input eof s).1
  | read_images (s : State) :
      s.readingFrames = true →
      Step process_frame next_frame s (read_images_iter next_frame s)
  | assign_workers (s : State) :
      assign_workers_cond s = true →
      Step process_frame next_frame s (assign_workers_iter s)
  | task (s s1 : State) :
      TaskStep process_frame next_frame s s1 → Step process_frame next_frame s s1

/-- The state the termination property asks for. -/
def Drained (s : State) : Prop :=
  s.readingFrames = false ∧ s.in_buffer = [] ∧ s.out_buffer = [] ∧
    s.intermediate_buffer = [] ∧ s.workers = 0

/-- A frame source that yields the given frames and then end-of-stream on every
later call. -/
def finiteSource (frames : List Frame) (n : Nat) : Option Frame :=
  frames.get? n

/-! ## Start-up -/

/-- The options `po::store` found on the command line (`vm`): for each option
whether it was given, with its value. -/
structure VariablesMap where
  help : Bool
  images : Option String
  video : Option Int
  decklink : Bool
  telemetry : Option String
  addr : Option String
  port : Option String
  output : Option String
  intermediate : Bool
deriving DecidableEq, Repr

/-- `vm.count(name)` for an option with a value. -/
def count {α : Type} (o : Option α) : Nat :=
  if o.isSome then 1 else 0

/-- `vm.count(name)` for a switch. -/
def countFlag (b : Bool) : Nat :=
  if b then 1 else 0

/-- `vm.size()`: the number of options given. -/
def VariablesMap.size (vm : VariablesMap) : Nat :=
  countFlag vm.help + count vm.images + count vm.video + countFlag vm.decklink +
    count vm.telemetry + count vm.addr + count vm.port + count vm.output +
    countFlag vm.intermediate

/-- The globals `handle_args` assigns; `none` is the null pointer. -/
structure Setup (M I : Type) where
  logReader : Option M
  importer : Option I
  outputDir : String
  intermediate : Bool

/-- The initialisers of the globals `handle_args` assigns. -/
def Setup.initial (M I : Type) : Setup M I :=
  { logReader := none, importer := none, outputDir := "./", intermediate := false }

/-- Modelled from the spec: the constructors of the metadata source and of the frame
sources (`metadata_input.h`, `decklink_import.h`, `pictureimport.h` are not among the
sources). Each returns the object or throws. -/
structure Collaborators (M I : Type) where
  newMetadataInputFile : String → Except String M
  newMetadataInputNet : String → String → Except String M
  newDeckLinkImport : Option M → Except String I
  newPictureImport : String → Option M → Except String I

/-- What `handle_args` writes to `cout`. -/
inductive Printed where
  | description
  | text (t : String)
deriving DecidableEq, Repr

/-- The assignment of `logReader` in `handle_args`. -/
def assignLogReader {M I : Type} (k : Collaborators M I) (vm : VariablesMap)
    (g : Setup M I) : Except String (Setup M I) :=
  match vm.telemetry with
  | some path =>
    match k.newMetadataInputFile path with
    | .ok m => .ok { g with logReader := some m }
    | .error e => .error e
  | none =>
    match vm.addr, vm.port with
    | some a, some p =>
      match k.newMetadataInputNet a p with
      | .ok m => .ok { g with logReader := some m }
      | .error e => .error e
    | _, _ => .ok g

/-- The assignments of `importer` in `handle_args`: the DeckLink card when the build
has it and the switch is given, then the image directory when it is given. -/
def assignImporter {M I : Type} (HAS_DECKLINK : Bool) (k : Collaborators M I)
    (vm : VariablesMap) (g : Setup M I) : Setup M I × Option String :=
  let r : Setup M I × Option String :=
    if HAS_DECKLINK && vm.decklink then
      match k.newDeckLinkImport g.logReader with
      | .ok i => ({ g with importer := some i }, none)
      | .error e => (g, some e)
    else (g, none)
  match r.2 with
  | some e => (r.1, some e)
  | none =>
    match vm.images with
    | some path =>
      match k.newPictureImport path r.1.logReader with
      | .ok i => ({ r.1 with importer := some i }, none)
      | .error e => (r.1, some e)
    | none => (r.1, none)

/-- The assignments of `outputDir` and `intermediate` in `handle_args`. -/
def assignOutput {M I : Type} (vm : VariablesMap) (g : Setup M I) : Setup M I :=
  let g1 :=
    match vm.output with
    | some dir => { g with outputDir := dir }
    | none => g
  if vm.intermediate then { g1 with intermediate := true } else g1

/-- `handle_args(argc, argv)` on the result of `po::parse_command_line` (the
options found, or the exception the parser threw): the return code, the globals and
what was printed. Without `HAS_DECKLINK` the option `decklink` is not declared: the
parser throws on it, `vm.count("decklink")` is 0 and the DeckLink branch is compiled
out. -/
def handle_args {M I : Type} (HAS_DECKLINK : Bool) (k : Collaborators M I)
    (parsed : Except String VariablesMap) (g : Setup M I) :
    Int × Setup M I × List Printed :=
  match parsed with
  | .error e => (1, g, [Printed.text (e ++ "\n")])
  | .ok vm =>
    if vm.help || vm.size == 0 then (1, g, [Printed.description])
    else
      let devices := count vm.video + countFlag (HAS_DECKLINK && vm.decklink) + count vm.images
      if devices > 1 then
        (1, g, [Printed.text "Invalid options: You can only specify one image source at a time\n"])
      else if devices == 0 then
        (1, g, [Printed.text "Error: You must specify an image source!\n"])
      else if !vm.telemetry.isSome && !(vm.addr.isSome && vm.port.isSome) then
        (1, g, [Printed.text
          "Invalid options; You must specify a telemetry file, or port and address\n"])
      else
        match assignLogReader k vm g with
        | .error e => (1, g, [Printed.text (e ++ "\n")])
        | .ok g1 =>
          match assignImporter HAS_DECKLINK k vm g1 with
          | (g2, some e) => (1, g2, [Printed.text (e ++ "\n")])
          | (g2, none) => (0, assignOutput vm g2, [])

/-- The collaborators used to evaluate `handle_args`: a metadata source and a frame
source are described by the arguments they were built from, and no constructor
throws. -/
def plainCollaborators : Collaborators (List String) (List String) :=
  { newMetadataInputFile := fun path => .ok [path],
    newMetadataInputNet := fun a p => .ok [a, p],
    newDeckLinkImport := fun _ => .ok ["decklink"],
    newPictureImport := fun path _ => .ok [path] }

/-- The options of the command line `warg-cv --video 0 --telemetry log.csv`. -/
def videoOptions : VariablesMap :=
  { help := false, images := none, video := some 0, decklink := false,
    telemetry := some "log.csv", addr := none, port := none, output := none,
    intermediate := false }

/-! # Theorems -/

/-! ## The console: dispatch lemmas -/

theorem handle_command_skip (args : List String) (acc : State × Bool × List Event)
    (cmd : Command) (h : args.head? ≠ some cmd.name) : handle_command args acc cmd = acc := by
  simp [handle_command, h]

theorem args_pos_of_head (args : List String) (name : String)
    (h : args.head? = some name) : 0 < args.length := by
  cases args with
  | nil => simp at h
  | cons a l => simp

theorem handle_command_usage (args : List String) (acc : State × Bool × List Event)
    (cmd : Command) (h1 : args.head? = some cmd.name)
    (h2 : args.length - 1 ≠ cmd.args.length) :
    handle_command args acc cmd = (acc.1, acc.2.1, acc.2.2 ++ usage cmd) := by
  have hpos := args_pos_of_head args cmd.name h1
  simp [handle_command, h1, h2, hpos]

theorem handle_command_run (args : List String) (acc : State × Bool × List Event)
    (cmd : Command) (h1 : args.head? = some cmd.name)
    (h2 : args.length - 1 = cmd.args.length) :
    handle_command args acc cmd =
      ((cmd.execute args.tail acc.1).1, true,
        acc.2.2 ++ logTrivial acc.1 Severity.info ("Executing command: " ++ cmd.name) ++
          [Event.exec cmd.name args.tail] ++ (cmd.execute args.tail acc.1).2) := by
  have hpos := args_pos_of_head args cmd.name h1
  simp [handle_command, h1, h2, hpos]

theorem foldl_skip (args : List String) (l : List Command)
    (h : ∀ c ∈ l, args.head? ≠ some c.name) (acc : State × Bool × List Event) :
    l.foldl (handle_command args) acc = acc := by
  induction l generalizing acc with
  | nil => rfl
  | cons c l ih =>
    rw [List.foldl_cons, handle_command_skip args acc c (h c (List.mem_cons_self _ _))]
    exact ih (fun d hd => h d (List.mem_cons_of_mem _ hd)) acc

/-- In a table without repeated names the loop of `handle_input` comes down to its
body at the one command the first token names. -/
theorem foldl_unique (args : List String) (l : List Command)
    (hnd : (l.map Command.name).Nodup) (c : Command) (hc : c ∈ l)
    (h1 : args.head? = some c.name) (acc : State × Bool × List Event) :
    l.foldl (handle_command args) acc = handle_command args acc c := by
  induction l generalizing acc with
  | nil => simp at hc
  | cons d l ih =>
    rw [List.map_cons, List.nodup_cons] at hnd
    rw [List.foldl_cons]
    rcases List.mem_cons.1 hc with rfl | hmem
    · apply foldl_skip
      intro e he heq
      apply hnd.1
      rw [h1] at heq
      have hname : c.name = e.name := Option.some.inj heq
      rw [hname]
      exact List.mem_map_of_mem _ he
    · have hne : args.head? ≠ some d.name := by
        intro heq
        apply hnd.1
        rw [h1] at heq
        have hname : c.name = d.name := Option.some.inj heq
        rw [← hname]
        exact List.mem_map_of_mem _ hmem
      rw [handle_command_skip args acc d hne]
      exact ih hnd.2 hmem acc

theorem commands_nodup : (commands.map Command.name).Nodup := by decide

theorem commands_table :
    commands.map (fun c => (c.name, c.desc, c.args)) = commandTable := rfl

theorem fallback_eq (s : State) :
    fallback s = (s, logTrivial s Severity.info "Executing command: help" ++
      [Event.exec "help" []] ++ (execute_help [] s).2) := rfl

theorem dispatch_unmatched (args : List String) (eof : Bool) (s : State)
    (h : ∀ c ∈ commands, args.head? ≠ some c.name) :
    dispatch args eof s =
      (s, Event.cout "wargcv$ " :: (if eof then [] else (fallback s).2)) := by
  unfold dispatch
  rw [foldl_skip args commands h]
  cases eof <;> simp [fallback_eq]

theorem dispatch_usage (args : List String) (eof : Bool) (s : State) (c : Command)
    (hc : c ∈ commands) (h1 : args.head? = some c.name)
    (h2 : args.length - 1 ≠ c.args.length) :
    dispatch args eof s =
      (s, Event.cout "wargcv$ " :: (usage c ++ (if eof then [] else (fallback s).2))) := by
  unfold dispatch
  rw [foldl_unique args commands commands_nodup c hc h1,
    handle_command_usage args _ c h1 h2]
  cases eof <;> simp [fallback_eq]

theorem dispatch_run (args : List String) (eof : Bool) (s : State) (c : Command)
    (hc : c ∈ commands) (h1 : args.head? = some c.name)
    (h2 : args.length - 1 = c.args.length) :
    dispatch args eof s =
      ((c.execute args.tail s).1, Event.cout "wargcv$ " ::
        (logTrivial s Severity.info ("Executing command: " ++ c.name) ++
          [Event.exec c.name args.tail] ++ (c.execute args.tail s).2)) := by
  unfold dispatch
  rw [foldl_unique args commands commands_nodup c hc h1,
    handle_command_run args _ c h1 h2]
  cases eof <;> simp

/-! ### The ghost trace -/

theorem executed_append (l m : List Event) : executed (l ++ m) = executed l ++ executed m := by
  induction l with
  | nil => rfl
  | cons e l ih => cases e <;> simp [executed, ih]

theorem executed_logTrivial (s : State) (sev : Severity) (msg : String) :
    executed (logTrivial s sev msg) = [] := by
  unfold logTrivial
  split <;> rfl

theorem executed_usage (c : Command) : executed (usage c) = [] := rfl

theorem executed_help (args : List String) (s : State) :
    executed (execute_help args s).2 = [] := rfl

theorem executed_fallback (s : State) : executed (fallback s).2 = [("help", [])] := by
  rw [fallback_eq]
  simp [executed_append, executed_logTrivial, executed_help, executed]

/-! ### The tokeniser -/

/-- A split always yields at least one token. -/
theorem splitChars_ne_nil (sep : Char → Bool) (l : List Char) : splitChars sep l ≠ [] := by
  cases l with
  | nil => simp [splitChars]
  | cons c cs =>
    unfold splitChars
    split
    · simp
    · split <;> simp

theorem splitChars_no_sep (sep : Char → Bool) (l : List Char) :
    ∀ t ∈ splitChars sep l, ∀ c ∈ t, sep c = false := by
  induction l with
  | nil => simp [splitChars]
  | cons c cs ih =>
    unfold splitChars
    by_cases hc : sep c = true
    · simp only [hc, if_true]
      intro t ht
      rcases List.mem_cons.1 ht with rfl | ht
      · simp
      · exact ih t ht
    · simp only [hc, if_false]
      cases hs : splitChars sep cs with
      | nil => exact absurd hs (splitChars_ne_nil sep cs)
      | cons t ts =>
        rw [hs] at ih
        intro u hu
        simp only [Bool.false_eq_true, if_false] at hu
        rcases List.mem_cons.1 hu with rfl | hu
        · intro d hd
          rcases List.mem_cons.1 hd with rfl | hd
          · simpa using hc
          · exact ih t (List.mem_cons_self _ _) d hd
        · exact ih u (List.mem_cons_of_mem _ hu)

theorem splitChars_token (sep : Char → Bool) (t : List Char)
    (ht : ∀ c ∈ t, sep c = false) : splitChars sep t = [t] := by
  induction t with
  | nil => rfl
  | cons c cs ih =>
    have hc : sep c = false := ht c (List.mem_cons_self _ _)
    have hcs := ih (fun d hd => ht d (List.mem_cons_of_mem _ hd))
    simp [splitChars, hc, hcs]

theorem splitChars_token_sep (sep : Char → Bool) (t : List Char) (d : Char) (r : List Char)
    (ht : ∀ c ∈ t, sep c = false) (hd : sep d = true) :
    splitChars sep (t ++ d :: r) = t :: splitChars sep r := by
  induction t with
  | nil => simp [splitChars, hd]
  | cons c cs ih =>
    have hc : sep c = false := ht c (List.mem_cons_self _ _)
    have hcs := ih (fun e he => ht e (List.mem_cons_of_mem _ he))
    simp [splitChars, hc, hcs]

theorem singleSpaceForm_cons (t u : String) (rest : List String) :
    singleSpaceForm (t :: u :: rest) = t ++ " " ++ singleSpaceForm (u :: rest) := rfl

theorem space_sep (c : Char) (h : (c == ' ') = true) : c = ' ' := by simpa using h

/-- Joining the tokens of a line with single spaces gives the line back. -/
theorem singleSpaceForm_split (l : List Char) :
    (singleSpaceForm ((splitChars (fun c => c == ' ') l).map String.mk)).data = l := by
  induction l with
  | nil => rfl
  | cons c cs ih =>
    cases hs : splitChars (fun c => c == ' ') cs with
    | nil => exact absurd hs (splitChars_ne_nil _ cs)
    | cons t ts =>
      rw [hs] at ih
      by_cases hc : (c == ' ') = true
      · have hc2 := space_sep c hc
        subst hc2
        simp only [splitChars, hs, List.map_cons, singleSpaceForm_cons] at ih ⊢
        simp only [beq_self_eq_true, if_true, List.map_cons, singleSpaceForm_cons,
          String.data_append, ih]
        rfl
      · simp only [splitChars, hs, hc, List.map_cons] at ih ⊢
        cases ts with
        | nil =>
          simp only [List.map_nil, singleSpaceForm] at ih ⊢
          simp [ih]
        | cons u us =>
          simp only [List.map_cons, singleSpaceForm_cons, String.data_append] at ih ⊢
          simp only [Bool.false_eq_true, if_false, List.map_cons, singleSpaceForm_cons,
            String.data_append]
          rw [← ih]
          simp

/-- A line written with single spaces splits into the tokens it was written from. -/
theorem split_singleSpaceForm (toks : List String) (hne : toks ≠ [])
    (h : ∀ t ∈ toks, ' ' ∉ t.data) :
    boost_split (singleSpaceForm toks) = toks := by
  unfold boost_split
  induction toks with
  | nil => exact absurd rfl hne
  | cons t ts ih =>
    have ht : ∀ c ∈ t.data, (fun c => c == ' ') c = false := by
      intro c hc
      have : c ≠ ' ' := fun e => h t (List.mem_cons_self _ _) (e ▸ hc)
      simpa using this
    cases ts with
    | nil =>
      simp only [singleSpaceForm]
      rw [splitChars_token _ t.data ht]
      rfl
    | cons u us =>
      have ih2 := ih (by simp) (fun v hv => h v (List.mem_cons_of_mem _ hv))
      rw [singleSpaceForm_cons, String.data_append, String.data_append]
      have hsp : (" " : String).data = [' '] := rfl
      rw [hsp, List.append_assoc, List.singleton_append,
        splitChars_token_sep _ t.data ' ' _ ht (by simp), List.map_cons, ih2]

theorem command_name_no_space (c : Command) (hc : c ∈ commands) : ' ' ∉ c.name.data := by
  simp only [commands, List.mem_cons, List.mem_singleton, List.not_mem_nil, or_false] at hc
  rcases hc with rfl | rfl | rfl | rfl | rfl | rfl <;> decide

/-! ## Claims about the console -/

/-- C3 as stated fails: on the line `frames.start now`, whose first token is the
registered name `frames.start` followed by one token where none is required,
`handle_input` (end-of-input not reached) executes a command action: the trace of
executed closures is the fallback `help`, not empty. -/
theorem arity_mismatch_runs_help :
    (boost_split "frames.start now").head? = some "frames.start" ∧
    (boost_split "frames.start now").length - 1 ≠ 0 ∧
    executed (handle_input "frames.start now" false
      (initial 4 Severity.debug "./" false)).2 = [("help", [])] := by
  decide

/-- C3, amended: for every input line whose first token equals the name of a
registered command `c` but whose number of remaining tokens differs from the number
of arguments `c` requires, `handle_input` prints the usage text of `c`, does not
execute the action of `c`, and leaves the whole state unchanged; when end-of-input
was not reached it then executes the fallback `help` once with no arguments and no
other action, and when end-of-input was reached it executes no action at all. -/
theorem handle_input_arity_mismatch (input : String) (eof : Bool) (s : State) (c : Command)
    (hc : c ∈ commands) (h1 : (boost_split input).head? = some c.name)
    (h2 : (boost_split input).length - 1 ≠ c.args.length) :
    handle_input input eof s =
      (s, Event.cout "wargcv$ " :: (usage c ++
        (if eof then []
         else logTrivial s Severity.info "Executing command: help" ++
           [Event.exec "help" []] ++ (execute_help [] s).2))) ∧
    executed (handle_input input eof s).2 = (if eof then [] else [("help", [])]) := by
  have h := dispatch_usage (boost_split input) eof s c hc h1 h2
  rw [fallback_eq] at h
  refine ⟨h, ?_⟩
  unfold handle_input
  rw [h]
  cases eof <;>
    simp [executed, executed_append, executed_logTrivial, executed_usage, executed_help]

/-- The amended C3 at the line `frames.stop` followed by two spaces, read at
end-of-input and then before it: the usage text is printed, the state is kept, and
the fallback runs only before end-of-input. -/
theorem handle_input_arity_mismatch_witness :
    (boost_split "frames.stop  ").head? = some "frames.stop" ∧
    (boost_split "frames.stop  ").length - 1 ≠ 0 ∧
    (handle_input "frames.stop  " true (initial 2 Severity.error "./" true)).1 =
      initial 2 Severity.error "./" true ∧
    executed (handle_input "frames.stop  " true (initial 2 Severity.error "./" true)).2 = [] ∧
    executed (handle_input "frames.stop  " false (initial 2 Severity.error "./" true)).2 =
      [("help", [])] :=
  ⟨by decide, by decide,
    congrArg Prod.fst
      (handle_input_arity_mismatch "frames.stop  " true (initial 2 Severity.error "./" true)
        ⟨"frames.stop", "starts fetching frames", [], execute_frames_stop⟩
        (by simp [commands]) (by decide) (by decide)).1,
    (handle_input_arity_mismatch "frames.stop  " true (initial 2 Severity.error "./" true)
      ⟨"frames.stop", "starts fetching frames", [], execute_frames_stop⟩
      (by simp [commands]) (by decide) (by decide)).2,
    (handle_input_arity_mismatch "frames.stop  " false (initial 2 Severity.error "./" true)
      ⟨"frames.stop", "starts fetching frames", [], execute_frames_stop⟩
      (by simp [commands]) (by decide) (by decide)).2⟩

/-- C4 as stated fails: the line `bogus` names no registered command, and when
end-of-input was reached while reading it `handle_input` executes nothing, the
fallback `help` included. -/
theorem unmatched_at_eof_runs_nothing :
    (∀ c ∈ commands, (boost_split "bogus").head? ≠ some c.name) ∧
    executed (handle_input "bogus" true (initial 4 Severity.debug "./" false)).2 = [] := by
  decide

/-- C4, amended: for every input line whose first token equals no registered command
name (the empty line included), `handle_input` leaves the whole state unchanged;
when end-of-input was not reached while reading the line it executes the fallback
`commands[0]` (`help`) exactly once with no arguments and no other action, and when
end-of-input was reached it executes no action at all. -/
theorem handle_input_unmatched (input : String) (eof : Bool) (s : State)
    (h : ∀ c ∈ commands, (boost_split input).head? ≠ some c.name) :
    handle_input input eof s =
      (s, Event.cout "wargcv$ " ::
        (if eof then []
         else logTrivial s Severity.info "Executing command: help" ++
           [Event.exec "help" []] ++ (execute_help [] s).2)) ∧
    executed (handle_input input eof s).2 = (if eof then [] else [("help", [])]) := by
  have h0 := dispatch_unmatched (boost_split input) eof s h
  rw [fallback_eq] at h0
  refine ⟨h0, ?_⟩
  unfold handle_input
  rw [h0]
  cases eof <;>
    simp [executed, executed_append, executed_logTrivial, executed_help]

/-- The amended C4 at the empty line, read before end-of-input and at it. -/
theorem handle_input_unmatched_witness :
    (∀ c ∈ commands, (boost_split "").head? ≠ some c.name) ∧
    (handle_input "" false (initial 4 Severity.debug "./" false)).1 =
      initial 4 Severity.debug "./" false ∧
    executed (handle_input "" false (initial 4 Severity.debug "./" false)).2 =
      [("help", [])] ∧
    executed (handle_input "" true (initial 4 Severity.debug "./" false)).2 = [] :=
  ⟨by decide,
    congrArg Prod.fst
      (handle_input_unmatched "" false (initial 4 Severity.debug "./" false) (by decide)).1,
    (handle_input_unmatched "" false (initial 4 Severity.debug "./" false) (by decide)).2,
    (handle_input_unmatched "" true (initial 4 Severity.debug "./" false) (by decide)).2⟩

/-- C5: a lifecycle command whose target state already holds changes nothing.
In every state with `readingFrames = false` the action of `frames.stop` returns the
state as it was, and in every state with `readingFrames = true` the action of
`frames.start` does (nothing is posted, no thread is created, the flag stays true);
what either emits is the one error record, which passes every filter up to `error`.
So the console command `frames.start` given twice in a row leaves the state the
first one produced. -/
theorem lifecycle_noop (s : State) (args : List String) (eof : Bool) :
    (s.readingFrames = false →
      execute_frames_stop args s =
        (s, logTrivial s Severity.error "Frames are not being fetched")) ∧
    (s.readingFrames = true →
      execute_frames_start args s =
        (s, logTrivial s Severity.error "Frames are already being fetched")) ∧
    (∀ msg, s.filter.rank ≤ Severity.error.rank →
      logTrivial s Severity.error msg = [Event.log Severity.error msg]) ∧
    (execute_frames_start args (execute_frames_start args s).1).1 =
      (execute_frames_start args s).1 ∧
    (handle_input "frames.start" eof (handle_input "frames.start" eof s).1).1 =
      (handle_input "frames.start" eof s).1 ∧
    (s.readingFrames = false →
      (handle_input "frames.stop" eof s).1 = s) := by
  have hsplit1 : boost_split "frames.start" = ["frames.start"] := by decide
  have hsplit2 : boost_split "frames.stop" = ["frames.stop"] := by decide
  have hrun1 : ∀ t : State, (handle_input "frames.start" eof t).1 =
      (execute_frames_start [] t).1 := by
    intro t
    unfold handle_input
    rw [hsplit1, dispatch_run ["frames.start"] eof t
      ⟨"frames.start", "starts fetching frames", [], execute_frames_start⟩
      (by simp [commands]) rfl rfl]
    rfl
  have hrun2 : ∀ t : State, (handle_input "frames.stop" eof t).1 =
      (execute_frames_stop [] t).1 := by
    intro t
    unfold handle_input
    rw [hsplit2, dispatch_run ["frames.stop"] eof t
      ⟨"frames.stop", "starts fetching frames", [], execute_frames_stop⟩
      (by simp [commands]) rfl rfl]
    rfl
  have htwice : ∀ (a : List String) (t : State),
      (execute_frames_start a (execute_frames_start a t).1).1 =
        (execute_frames_start a t).1 := by
    intro a t
    cases hr : t.readingFrames <;> simp [execute_frames_start, hr, queue_work]
  refine ⟨?_, ?_, ?_, htwice args s, ?_, ?_⟩
  · intro h
    simp [execute_frames_stop, h]
  · intro h
    simp [execute_frames_start, h]
  · intro msg h
    simp [logTrivial, h]
  · rw [hrun1, hrun1, htwice]
  · intro h
    rw [hrun2]
    simp [execute_frames_stop, h]

/-- C8 as stated fails: the line `frames.start` followed by one space is, split on
whitespace, the single token `frames.start`, a registered command with its required
zero arguments; `handle_input` splits it into two tokens and does not execute
`frames.start`, while it does on the single-space form; and a tab does not separate
tokens at all. -/
theorem trailing_space_not_dispatched :
    whitespaceTokens "frames.start " = ["frames.start"] ∧
    singleSpaceForm (whitespaceTokens "frames.start ") = "frames.start" ∧
    boost_split "frames.start " = ["frames.start", ""] ∧
    (handle_input "frames.start " false (initial 4 Severity.debug "./" false)).1.readingFrames
      = false ∧
    (handle_input "frames.start" false (initial 4 Severity.debug "./" false)).1.readingFrames
      = true ∧
    whitespaceTokens "frames.stop\tnow" = ["frames.stop", "now"] ∧
    boost_split "frames.stop\tnow" = ["frames.stop\tnow"] := by
  decide

/-- C8, amended: `handle_input` tokenises the input line by splitting it at every
single space character and at nothing else, keeping empty tokens: no token contains
a space, and the tokens joined by single spaces are the line. So a line made of a
registered command name and exactly its required number of space-free arguments,
each preceded by exactly one space, with nothing before the name or after the last
token, executes the action of that command, once, on those arguments. -/
theorem handle_input_single_space (input : String) :
    singleSpaceForm (boost_split input) = input ∧
    (∀ t ∈ boost_split input, ' ' ∉ t.data) ∧
    (∀ c ∈ commands, ∀ (as : List String) (eof : Bool) (s : State),
      as.length = c.args.length → (∀ a ∈ as, ' ' ∉ a.data) →
      handle_input (singleSpaceForm (c.name :: as)) eof s =
        ((c.execute as s).1, Event.cout "wargcv$ " ::
          (logTrivial s Severity.info ("Executing command: " ++ c.name) ++
            [Event.exec c.name as] ++ (c.execute as s).2))) := by
  refine ⟨?_, ?_, ?_⟩
  · apply String.ext
    exact singleSpaceForm_split input.data
  · intro t ht hmem
    unfold boost_split at ht
    rcases List.mem_map.1 ht with ⟨u, hu, rfl⟩
    have := splitChars_no_sep (fun c => c == ' ') input.data u hu ' ' hmem
    simp at this
  · intro c hc as eof s hlen has
    have htoks : ∀ t ∈ c.name :: as, ' ' ∉ t.data := by
      intro t ht
      rcases List.mem_cons.1 ht with rfl | ht
      · exact command_name_no_space _ hc
      · exact has t ht
    have hsplit := split_singleSpaceForm (c.name :: as) (by simp) htoks
    unfold handle_input
    rw [hsplit]
    exact dispatch_run (c.name :: as) eof s c hc rfl (by simpa using hlen)

/-! ## RateEstimator -/

theorem wrapInt_of_range (x : Int) (hlo : -2147483648 ≤ x) (hhi : x ≤ INT_MAX) :
    wrapInt x = x := by
  unfold wrapInt
  unfold INT_MAX at hhi
  omega

/-- Below `INT_MAX` the increment does not wrap. -/
theorem updateAverage_in_range (A : ℚ) (C : Int) (l : ℚ) (hC : 0 ≤ C)
    (hmax : C + 1 ≤ INT_MAX) :
    updateAverage (A, C) l = ((l + A * (C : ℚ)) / ((C + 1 : Int) : ℚ), C + 1) := by
  unfold updateAverage
  rw [wrapInt_of_range (C + 1) (by omega) hmax]

theorem foldl_updateAverage_count (L : List ℚ) (A : ℚ) (C : Int) (hC : 0 ≤ C)
    (hmax : C + L.length ≤ INT_MAX) :
    (L.foldl updateAverage (A, C)).2 = C + L.length := by
  induction L generalizing A C with
  | nil => simp
  | cons l L ih =>
    simp only [List.length_cons, Nat.cast_add, Nat.cast_one] at hmax
    rw [List.foldl_cons, updateAverage_in_range A C l hC (by omega),
      ih _ (C + 1) (by omega) (by omega)]
    simp only [List.length_cons]
    push_cast
    ring

theorem foldl_updateAverage_total (L : List ℚ) (A : ℚ) (C : Int) (hC : 0 ≤ C)
    (hmax : C + L.length ≤ INT_MAX) :
    (L.foldl updateAverage (A, C)).1 * ((C : ℚ) + L.length) = A * C + L.sum := by
  induction L generalizing A C with
  | nil => simp
  | cons l L ih =>
    simp only [List.length_cons, Nat.cast_add, Nat.cast_one] at hmax
    rw [List.foldl_cons, updateAverage_in_range A C l hC (by omega)]
    have hpos : ((C + 1 : Int) : ℚ) ≠ 0 := by
      have : (0 : Int) < C + 1 := by omega
      exact_mod_cast this.ne'
    have h := ih ((l + A * (C : ℚ)) / ((C + 1 : Int) : ℚ)) (C + 1) (by omega) (by omega)
    simp only [List.length_cons, List.sum_cons]
    rw [div_mul_cancel₀ _ hpos] at h
    have hcast : ((C : ℚ) + ((L.length + 1 : Nat) : ℚ)) = (((C + 1 : Int) : ℚ) + L.length) := by
      push_cast
      ring
    rw [hcast, h]
    ring

theorem foldl_updateAverage_mean (L : List ℚ) (A : ℚ) (C : Int) (hC : 0 ≤ C)
    (hmax : C + L.length ≤ INT_MAX) (hne : (C : ℚ) + L.length ≠ 0) :
    (L.foldl updateAverage (A, C)).1 = (A * C + L.sum) / ((C : ℚ) + L.length) := by
  rw [eq_div_iff hne]
  exact foldl_updateAverage_total L A C hC hmax

theorem worker_updates_average (pf : Frame → Frame) (latency : ℚ) (f : Frame)
    (s s1 : State) (h : worker pf latency f s = some s1) :
    (s1.aveFrameTime, s1.frameCount) = updateAverage (s.aveFrameTime, s.frameCount) latency := by
  unfold worker at h
  by_cases himg : f.img.isEmpty = true
  · simp [himg] at h
  · simp only [himg, Bool.false_eq_true, if_false, Option.some.injEq] at h
    rw [← h]
    split <;> rfl

/-- C6 as stated fails: `frameCount` is a 32-bit `int`. From the average 10 over the
count 2147483646, two samples of 10 take the count past `INT_MAX`: the second
increment wraps, and the update ends with `frameCount = -2147483648` and
`aveFrameTime = -10`, not with `frameCount = 2147483648` and the mean 10. -/
theorem average_wraps_past_int_max :
    (0 : Int) ≤ 2147483646 ∧
    ([10, 10] : List ℚ).foldl updateAverage (10, 2147483646) = (-10, -2147483648) ∧
    (([10, 10] : List ℚ).foldl updateAverage (10, 2147483646)).2 ≠
      2147483646 + (([10, 10] : List ℚ).length : Int) ∧
    (([10, 10] : List ℚ).foldl updateAverage (10, 2147483646)).1 ≠
      (10 * ((2147483646 : Int) : ℚ) + ([10, 10] : List ℚ).sum) /
        (((2147483646 : Int) : ℚ) + (([10, 10] : List ℚ).length : ℚ)) := by
  have h1 : wrapInt (2147483646 + 1) = 2147483647 := by decide
  have h2 : wrapInt (2147483647 + 1) = -2147483648 := by decide
  have hrun : ([10, 10] : List ℚ).foldl updateAverage (10, 2147483646) =
      (-10, -2147483648) := by
    simp only [List.foldl_cons, List.foldl_nil, updateAverage, h1, h2]
    norm_num
  refine ⟨by decide, hrun, ?_, ?_⟩
  · rw [hrun]
    decide
  · rw [hrun]
    norm_num

/-- C6, amended: over exact rational arithmetic, from an average `A0` over a count
`C0 ≥ 0` the average update of `worker`, applied once per latency of a list of `N`
latencies with `C0 + N ≤ 2147483647` (the largest value of the `int frameCount`),
ends with `frameCount = C0 + N` and with
`aveFrameTime * (C0 + N) = A0*C0 + L1 + ... + LN`, that is
`aveFrameTime = (A0*C0 + L1 + ... + LN) / (C0 + N)` whenever `C0 + N` is not zero;
the end state is the same for every order of the list; each single update at a count
from 0 to 2147483646 is `avg' = (latency + avg*count)/(count+1)`, and it is the
update `worker` makes; and from the initial state (`aveFrameTime = 1000`,
`frameCount = 0`) at least one sample gives the plain mean of the samples. -/
theorem average_is_cumulative_mean (A0 : ℚ) (C0 : Int) (hC : 0 ≤ C0) (L : List ℚ)
    (hmax : C0 + L.length ≤ INT_MAX) :
    (L.foldl updateAverage (A0, C0)).2 = C0 + L.length ∧
    (L.foldl updateAverage (A0, C0)).1 * ((C0 : ℚ) + L.length) = A0 * C0 + L.sum ∧
    ((C0 : ℚ) + L.length ≠ 0 →
      (L.foldl updateAverage (A0, C0)).1 = (A0 * C0 + L.sum) / ((C0 : ℚ) + L.length)) ∧
    (∀ L2 : List ℚ, L2.Perm L →
      L2.foldl updateAverage (A0, C0) = L.foldl updateAverage (A0, C0)) ∧
    (∀ (avg latency : ℚ) (n : Int), 0 ≤ n → n + 1 ≤ INT_MAX →
      updateAverage (avg, n) latency = ((latency + avg * n) / ((n : ℚ) + 1), n + 1)) ∧
    (∀ (pf : Frame → Frame) (latency : ℚ) (f : Frame) (s s1 : State),
      worker pf latency f s = some s1 →
      (s1.aveFrameTime, s1.frameCount) =
        updateAverage (s.aveFrameTime, s.frameCount) latency) ∧
    (L ≠ [] → (L.foldl updateAverage (1000, 0)).1 = L.sum / L.length) := by
  have hlenmax : (0 : Int) + L.length ≤ INT_MAX := by omega
  refine ⟨foldl_updateAverage_count L A0 C0 hC hmax,
    foldl_updateAverage_total L A0 C0 hC hmax,
    foldl_updateAverage_mean L A0 C0 hC hmax, ?_, ?_, worker_updates_average, ?_⟩
  · intro L2 hperm
    cases L with
    | nil => rw [List.Perm.eq_nil hperm]
    | cons l L =>
      have hlen : L2.length = (l :: L).length := hperm.length_eq
      have hsum : L2.sum = (l :: L).sum := hperm.sum_eq
      have hmax2 : C0 + L2.length ≤ INT_MAX := by rw [hlen]; exact hmax
      have hpos : (C0 : ℚ) + ((l :: L).length : ℚ) ≠ 0 := by
        have h0 : (0 : ℚ) ≤ (C0 : ℚ) := by exact_mod_cast hC
        have h1 : (0 : ℚ) < (((l :: L).length : Nat) : ℚ) := by
          simp only [List.length_cons]
          positivity
        linarith
      apply Prod.ext
      · rw [foldl_updateAverage_mean L2 A0 C0 hC hmax2 (by rw [hlen]; exact hpos),
          foldl_updateAverage_mean (l :: L) A0 C0 hC hmax hpos, hlen, hsum]
      · rw [foldl_updateAverage_count L2 A0 C0 hC hmax2,
          foldl_updateAverage_count (l :: L) A0 C0 hC hmax, hlen]
  · intro avg latency n hn hnmax
    rw [updateAverage_in_range avg n latency hn hnmax]
    simp
  · intro hne
    have hlen : ((L.length : Nat) : ℚ) ≠ 0 := by
      have : L.length ≠ 0 := fun h => hne (List.length_eq_zero.1 h)
      exact_mod_cast this
    have h := foldl_updateAverage_mean L 1000 0 (le_refl 0) hlenmax (by simpa using hlen)
    simpa using h

/-- The amended C6 at an average of 20 over one sample, followed by the latencies 30,
50, 10. -/
theorem average_is_cumulative_mean_witness :
    (0 : Int) ≤ 1 ∧
    (1 : Int) + (([30, 50, 10] : List ℚ).length : Int) ≤ INT_MAX ∧
    (([30, 50, 10] : List ℚ).foldl updateAverage (20, 1)).2 =
      1 + (([30, 50, 10] : List ℚ).length : Int) ∧
    (([30, 50, 10] : List ℚ).foldl updateAverage (20, 1)).1 *
        (((1 : Int) : ℚ) + (([30, 50, 10] : List ℚ).length : ℚ)) =
      20 * ((1 : Int) : ℚ) + ([30, 50, 10] : List ℚ).sum :=
  ⟨by decide, by decide,
    (average_is_cumulative_mean 20 1 (by decide) [30, 50, 10] (by decide)).1,
    (average_is_cumulative_mean 20 1 (by decide) [30, 50, 10] (by decide)).2.1⟩

/-! ## Detection and output -/

/-- What `worker` does to the state when its assertion holds. -/
theorem worker_eq (pf : Frame → Frame) (latency : ℚ) (f : Frame) (s : State)
    (himg : f.img ≠ []) :
    ∃ s1, worker pf latency f s = some s1 ∧
      s1.intermediate_buffer = s.intermediate_buffer ++
        (if s.intermediate = true ∧ 0 < (pf f).objects.length then [pf f] else []) ∧
      s1.out_buffer = s.out_buffer ∧ s1.sink = s.sink ∧ s1.saved = s.saved ∧
      s1.readingFrames = s.readingFrames ∧ s1.workers = s.workers ∧
      s1.intermediate = s.intermediate ∧ s1.outputDir = s.outputDir ∧
      s1.in_buffer = s.in_buffer := by
  have hemp : f.img.isEmpty = false := by
    cases h : f.img with
    | nil => exact absurd h himg
    | cons a l => rfl
  unfold worker
  simp only [hemp, Bool.false_eq_true, if_false]
  refine ⟨_, rfl, ?_⟩
  by_cases hc : s.intermediate = true ∧ 0 < (pf f).objects.length
  · simp [hc.1, hc.2]
  · by_cases hi : s.intermediate = true
    · have hlen : ¬ 0 < (pf f).objects.length := fun h => hc ⟨hi, h⟩
      simp [hi, hlen]
    · simp [hi]

/-- The frames of a list run through `worker`: the frames with a detection are pushed
to `intermediate_buffer` in list order when intermediate mode is on, and nothing is
pushed to `out_buffer`. -/
theorem runWorkers_eq (pf : Frame → Frame) (jobs : List (Frame × ℚ)) (s : State)
    (himg : ∀ j ∈ jobs, j.1.img ≠ []) :
    ∃ s1, runWorkers pf jobs s = some s1 ∧
      s1.intermediate_buffer = s.intermediate_buffer ++
        (if s.intermediate = true then
          (jobs.map (fun j => pf j.1)).filter (fun f => decide (0 < f.objects.length))
         else []) ∧
      s1.out_buffer = s.out_buffer ∧ s1.sink = s.sink ∧ s1.saved = s.saved ∧
      s1.readingFrames = s.readingFrames ∧ s1.workers = s.workers ∧
      s1.intermediate = s.intermediate ∧ s1.outputDir = s.outputDir ∧
      s1.in_buffer = s.in_buffer := by
  induction jobs generalizing s with
  | nil =>
    refine ⟨s, rfl, ?_⟩
    cases s.intermediate <;> simp
  | cons j jobs ih =>
    obtain ⟨s1, h1, hb1, ho1, hs1, hv1, hr1, hw1, hi1, hd1, hn1⟩ :=
      worker_eq pf j.2 j.1 s (himg j (List.mem_cons_self _ _))
    obtain ⟨s2, h2, hb2, ho2, hs2, hv2, hr2, hw2, hi2, hd2, hn2⟩ :=
      ih s1 (fun k hk => himg k (List.mem_cons_of_mem _ hk))
    refine ⟨s2, ?_, ?_, ho2.trans ho1, hs2.trans hs1, hv2.trans hv1, hr2.trans hr1,
      hw2.trans hw1, hi2.trans hi1, hd2.trans hd1, hn2.trans hn1⟩
    · simp only [runWorkers, h1, h2]
    · rw [hb2, hb1, hi1]
      by_cases hi : s.intermediate = true
      · by_cases hl : 0 < (pf j.1).objects.length
        · simp [hi, hl, List.filter_cons]
        · simp [hi, hl, List.filter_cons]
      · simp [hi]

/-- With ingestion stopped and no worker active, `output` returns once the fuel
exceeds the longer of its two queues, having appended `out_buffer` to the sink and
saved `intermediate_buffer`, both in queue order. -/
theorem output_drains (fuel : Nat) (s : State) (hr : s.readingFrames = false)
    (hw : s.workers ≤ 0)
    (hf : max s.out_buffer.length s.intermediate_buffer.length < fuel) :
    output fuel s = some
      { s with sink := s.sink ++ s.out_buffer,
               saved := s.saved ++ s.intermediate_buffer.map (fun f => (f, s.outputDir)),
               out_buffer := [], intermediate_buffer := [], ioStopped := true } := by
  induction fuel generalizing s with
  | zero => omega
  | succ fuel ih =>
    have hw2 : ¬ (s.workers > 0) := by omega
    obtain ⟨ib, ob, mb, w, rf, od, im, pr, av, fc, po, th, io, fl, fe, sk, sv⟩ := s
    simp only at hr hw hw2 hf
    subst hr
    cases ob with
    | nil =>
      cases mb with
      | nil => simp [output, output_cond, hw2]
      | cons m mb =>
        simp only [List.length_cons, List.length_nil] at hf
        simp only [output, output_cond, List.length_cons, List.length_nil, gt_iff_lt,
          Nat.lt_irrefl, decide_False, Bool.or_false, Bool.false_or, Nat.zero_lt_succ,
          decide_True, Bool.or_true, Bool.true_or, if_true]
        rw [ih]
        · simp [output_iter]
        · simp [output_iter]
        · simpa [output_iter] using hw
        · simp only [output_iter, List.length_nil]
          omega
    | cons t ob =>
      cases mb with
      | nil =>
        simp only [List.length_cons, List.length_nil] at hf
        simp only [output, output_cond, List.length_cons, List.length_nil, gt_iff_lt,
          Nat.lt_irrefl, decide_False, Bool.or_false, Bool.false_or, Nat.zero_lt_succ,
          decide_True, Bool.or_true, Bool.true_or, if_true]
        rw [ih]
        · simp [output_iter]
        · simp [output_iter]
        · simpa [output_iter] using hw
        · simp only [output_iter, List.length_nil]
          omega
      | cons m mb =>
        simp only [List.length_cons] at hf
        simp only [output, output_cond, List.length_cons, List.length_nil, gt_iff_lt,
          Nat.lt_irrefl, decide_False, Bool.or_false, Bool.false_or, Nat.zero_lt_succ,
          decide_True, Bool.or_true, Bool.true_or, if_true]
        rw [ih]
        · simp [output_iter]
        · simp [output_iter]
        · simpa [output_iter] using hw
        · simp only [output_iter]
          omega

/-- Whatever frames are run through `worker` and drained by `output`, the records
appended to the sink are the targets `out_buffer` held before the first frame was
processed: no detection of a processed frame is among them. -/
theorem sink_receives_old_out_buffer (pf : Frame → Frame) (jobs : List (Frame × ℚ))
    (s : State) (fuel : Nat) (himg : ∀ j ∈ jobs, j.1.img ≠ [])
    (hr : s.readingFrames = false) (hw : s.workers = 0)
    (hfuel : max s.out_buffer.length (s.intermediate_buffer.length + jobs.length) < fuel) :
    ∃ s2, detectThenOutput pf fuel jobs s = some s2 ∧ s2.sink = s.sink ++ s.out_buffer := by
  obtain ⟨s1, h1, hb1, ho1, hs1, _, hr1, hw1, _, _, _⟩ := runWorkers_eq pf jobs s himg
  have hlen : s1.intermediate_buffer.length ≤ s.intermediate_buffer.length + jobs.length := by
    rw [hb1, List.length_append]
    split
    · have := List.length_filter_le (fun f : Frame => decide (0 < f.objects.length))
        (jobs.map (fun j => pf j.1))
      simp only [List.length_map] at this
      omega
    · simp
  have hout := output_drains fuel s1 (hr1.trans hr) (by rw [hw1, hw])
    (by rw [ho1]; omega)
  have hdet : detectThenOutput pf fuel jobs s = output fuel s1 := by
    simp only [detectThenOutput, h1]
  rw [hdet, hout]
  exact ⟨_, rfl, by simp [hs1, ho1]⟩

/-- C1, evaluated where it fails: one frame with a non-empty image is run through
`worker` in intermediate mode, `process_frame` adding one detection to it, and then
drained by `output`. The frame, with its detection, is saved, yet `out.txt` receives
no record and `out_buffer` stays empty: nothing in `worker` pushes to `out_buffer`. -/
theorem detections_never_reach_out_buffer :
    ((fun f : Frame => { f with objects := f.objects ++ [Target.mk 7] })
      (Frame.mk [1] [])).objects = [Target.mk 7] ∧
    (runWorkers (fun f => { f with objects := f.objects ++ [Target.mk 7] })
      [(Frame.mk [1] [], 5)] (initial 4 Severity.debug "./" true)).map
        (fun s => (s.out_buffer, s.intermediate_buffer)) =
      some ([], [Frame.mk [1] [Target.mk 7]]) ∧
    (detectThenOutput (fun f => { f with objects := f.objects ++ [Target.mk 7] }) 2
      [(Frame.mk [1] [], 5)] (initial 4 Severity.debug "./" true)).map
        (fun s => (s.sink, s.out_buffer, s.saved)) =
      some ([], [], [(Frame.mk [1] [Target.mk 7], "./")]) := by
  refine ⟨rfl, ?_, ?_⟩
  · simp [runWorkers, worker, initial]
  · simp [detectThenOutput, runWorkers, worker, initial, output, output_cond, output_iter]

/-- Passes through the loop body of `output`, whatever the loop condition: the first
`n` frames of `intermediate_buffer` are saved in queue order with `outputDir`, and
the rest stay queued. -/
theorem output_iter_iterate (n : Nat) (s : State) :
    (output_iter^[n] s).saved =
      s.saved ++ (s.intermediate_buffer.take n).map (fun f => (f, s.outputDir)) ∧
    (output_iter^[n] s).intermediate_buffer = s.intermediate_buffer.drop n ∧
    (output_iter^[n] s).outputDir = s.outputDir := by
  induction n generalizing s with
  | zero => simp
  | succ n ih =>
    rw [Function.iterate_succ_apply]
    obtain ⟨h1, h2, h3⟩ := ih (output_iter s)
    rw [h1, h2, h3]
    obtain ⟨ib, ob, mb, w, rf, od, im, pr, av, fc, po, th, io, fl, fe, sk, sv⟩ := s
    cases ob <;> cases mb <;> simp [output_iter]

/-- C7: frames with non-empty image payloads are run through `worker` one after the
other, starting with an empty `intermediate_buffer`, and then drained by `output`.
`worker` returns for every frame. With intermediate mode on, the frames pushed to
`intermediate_buffer` are exactly the processed frames with at least one detection,
each once, in processing order; with intermediate mode off nothing is pushed.
`output` calls `Frame::save` on exactly the pushed frames, once each, in the order
they were pushed: after as many passes through its loop as there are pushed frames,
and after any larger number, the saved frames are the pushed ones and the queue is
empty. When ingestion has stopped and no worker is active, `output` returns (the fuel
exceeding the queue lengths) with the same saves, and their number is the number of
frames with at least one detection in intermediate mode and zero otherwise. -/
theorem intermediate_frames_saved_once (pf : Frame → Frame) (jobs : List (Frame × ℚ))
    (s : State) (himg : ∀ j ∈ jobs, j.1.img ≠ []) (hib : s.intermediate_buffer = []) :
    ∃ s1, runWorkers pf jobs s = some s1 ∧
      s1.intermediate_buffer =
        (if s.intermediate = true then
          (jobs.map (fun j => pf j.1)).filter (fun f => decide (0 < f.objects.length))
         else []) ∧
      s1.intermediate_buffer.length =
        (if s.intermediate = true then
          jobs.countP (fun j => decide (0 < (pf j.1).objects.length))
         else 0) ∧
      s1.saved = s.saved ∧
      (∀ n, s1.intermediate_buffer.length ≤ n →
        (output_iter^[n] s1).saved =
          s.saved ++ s1.intermediate_buffer.map (fun f => (f, s.outputDir)) ∧
        (output_iter^[n] s1).intermediate_buffer = []) ∧
      (s.readingFrames = false → s.workers = 0 →
        ∀ fuel, max s.out_buffer.length jobs.length < fuel →
          ∃ s2, output fuel s1 = some s2 ∧ detectThenOutput pf fuel jobs s = some s2 ∧
            s2.saved = s.saved ++ s1.intermediate_buffer.map (fun f => (f, s.outputDir)) ∧
            s2.intermediate_buffer = [] ∧
            s2.saved.length = s.saved.length +
              (if s.intermediate = true then
                jobs.countP (fun j => decide (0 < (pf j.1).objects.length))
               else 0)) := by
  obtain ⟨s1, h1, hb1, ho1, _, hv1, hr1, hw1, _, hd1, _⟩ := runWorkers_eq pf jobs s himg
  rw [hib, List.nil_append] at hb1
  have hlen : s1.intermediate_buffer.length =
      (if s.intermediate = true then
        jobs.countP (fun j => decide (0 < (pf j.1).objects.length)) else 0) := by
    rw [hb1]
    split
    · rw [← List.countP_eq_length_filter, List.countP_map]
      rfl
    · rfl
  have hle : s1.intermediate_buffer.length ≤ jobs.length := by
    rw [hlen]
    split
    · exact List.countP_le_length _
    · omega
  refine ⟨s1, h1, hb1, hlen, hv1, ?_, ?_⟩
  · intro n hn
    obtain ⟨e1, e2, _⟩ := output_iter_iterate n s1
    rw [e1, e2, List.take_of_length_le hn, List.drop_of_length_le hn, hv1, hd1]
    exact ⟨rfl, rfl⟩
  · intro hr hw fuel hfuel
    have hout := output_drains fuel s1 (hr1.trans hr) (by rw [hw1, hw])
      (by rw [ho1]; omega)
    have hdet : detectThenOutput pf fuel jobs s = output fuel s1 := by
      simp only [detectThenOutput, h1]
    rw [hdet]
    refine ⟨_, hout, hout, ?_, rfl, ?_⟩
    · simp [hv1, hd1]
    · simp only [List.length_append, List.length_map, hv1, hlen]

/-- C7 at two frames of which the second has a detection, in intermediate mode: one
frame is pushed, and saved by the first pass of `output`. -/
theorem intermediate_frames_saved_once_witness :
    (∀ j ∈ [(Frame.mk [1] [], (5 : ℚ)), (Frame.mk [2] [Target.mk 3], 6)], j.1.img ≠ []) ∧
    (initial 4 Severity.debug "./" true).intermediate_buffer = [] ∧
    ∃ s1,
      runWorkers id [(Frame.mk [1] [], 5), (Frame.mk [2] [Target.mk 3], 6)]
        (initial 4 Severity.debug "./" true) = some s1 ∧
      s1.intermediate_buffer = [Frame.mk [2] [Target.mk 3]] ∧
      (output_iter^[1] s1).saved = [(Frame.mk [2] [Target.mk 3], "./")] := by
  have himg : ∀ j ∈ [(Frame.mk [1] [], (5 : ℚ)), (Frame.mk [2] [Target.mk 3], 6)],
      j.1.img ≠ [] := by decide
  obtain ⟨s1, h1, h2, h3, _, h5, _⟩ :=
    intermediate_frames_saved_once id [(Frame.mk [1] [], 5), (Frame.mk [2] [Target.mk 3], 6)]
      (initial 4 Severity.debug "./" true) himg rfl
  have hb : s1.intermediate_buffer = [Frame.mk [2] [Target.mk 3]] := by
    rw [h2]
    decide
  refine ⟨himg, rfl, s1, h1, hb, ?_⟩
  have h6 := (h5 1 (by rw [hb]; decide)).1
  rw [h6, hb]
  rfl

/-! ## The ingestion queue -/

theorem execute_in_buffer (c : Command) (hc : c ∈ commands) (args : List String) (s : State) :
    (c.execute args s).1.in_buffer = s.in_buffer := by
  simp only [commands, List.mem_cons, List.mem_singleton, List.not_mem_nil, or_false] at hc
  rcases hc with rfl | rfl | rfl | rfl | rfl | rfl
  · rfl
  · rfl
  · rfl
  · rfl
  · simp only [execute_frames_start]
    split <;> rfl
  · simp only [execute_frames_stop]
    split <;> rfl

theorem handle_command_in_buffer (args : List String) (acc : State × Bool × List Event)
    (c : Command) (hc : c ∈ commands) :
    (handle_command args acc c).1.in_buffer = acc.1.in_buffer := by
  unfold handle_command
  split
  · split
    · exact execute_in_buffer c hc _ _
    · rfl
  · rfl

theorem foldl_in_buffer (args : List String) (l : List Command) (hl : ∀ c ∈ l, c ∈ commands)
    (acc : State × Bool × List Event) :
    (l.foldl (handle_command args) acc).1.in_buffer = acc.1.in_buffer := by
  induction l generalizing acc with
  | nil => rfl
  | cons c l ih =>
    rw [List.foldl_cons, ih (fun d hd => hl d (List.mem_cons_of_mem _ hd)),
      handle_command_in_buffer args acc c (hl c (List.mem_cons_self _ _))]

/-- No console command touches `in_buffer`. -/
theorem handle_input_in_buffer (input : String) (eof : Bool) (s : State) :
    (handle_input input eof s).1.in_buffer = s.in_buffer := by
  unfold handle_input dispatch
  have h := foldl_in_buffer (boost_split input) commands (fun c hc => hc)
    (s, false, [Event.cout "wargcv$ "])
  dsimp only
  split
  · rw [fallback_eq]
    exact h
  · exact h

theorem read_images_iter_in_buffer (nf : Nat → Option Frame) (s : State) :
    ((read_images_iter nf s).fetched ≠ s.fetched → s.in_buffer.length < BUFFER_SIZE) ∧
    (read_images_iter nf s).in_buffer.length ≤ s.in_buffer.length + 1 ∧
    (s.in_buffer.length ≤ BUFFER_SIZE →
      (read_images_iter nf s).in_buffer.length ≤ BUFFER_SIZE) ∧
    (read_images_iter nf s).fetched ≤ s.fetched + 1 := by
  unfold read_images_iter
  by_cases hlt : s.in_buffer.length < BUFFER_SIZE
  · rw [if_pos hlt]
    cases nf s.fetched with
    | none => exact ⟨fun _ => hlt, by simp, fun h => h, by simp⟩
    | some f =>
      refine ⟨fun _ => hlt, ?_, fun _ => ?_, ?_⟩
      · simp
      · simp only [List.length_append, List.length_singleton]
        omega
      · simp
  · simp [hlt]

theorem assign_workers_iter_in_buffer (s : State) :
    (assign_workers_iter s).in_buffer.length ≤ s.in_buffer.length := by
  unfold assign_workers_iter
  cases h : s.in_buffer with
  | nil => simp [h]
  | cons f l => simp

theorem output_iter_in_buffer (s : State) : (output_iter s).in_buffer = s.in_buffer := by
  obtain ⟨ib, ob, mb, w, rf, od, im, pr, av, fc, po, th, io, fl, fe, sk, sv⟩ := s
  cases ob <;> cases mb <;> rfl

theorem worker_in_buffer (pf : Frame → Frame) (latency : ℚ) (f : Frame) (s s1 : State)
    (h : worker pf latency f s = some s1) : s1.in_buffer = s.in_buffer := by
  unfold worker at h
  by_cases himg : f.img.isEmpty = true
  · simp [himg] at h
  · simp only [himg, Bool.false_eq_true, if_false, Option.some.injEq] at h
    rw [← h]
    split <;> rfl

theorem taskStep_in_buffer (pf : Frame → Frame) (nf : Nat → Option Frame) (s s1 : State)
    (h : TaskStep pf nf s s1) (hs : s.in_buffer.length ≤ BUFFER_SIZE) :
    s1.in_buffer.length ≤ BUFFER_SIZE := by
  cases h with
  | read_images_iter _ _ => exact (read_images_iter_in_buffer nf s).2.2.1 hs
  | read_images_return _ _ => exact hs
  | assign_workers_iter _ _ => exact le_trans (assign_workers_iter_in_buffer s) hs
  | assign_workers_return _ _ => exact hs
  | output_iter _ _ => rw [output_iter_in_buffer]; exact hs
  | output_return _ _ => exact hs
  | worker _ f latency _ hw =>
    rw [worker_in_buffer pf latency f _ s1 hw]
    exact hs

theorem step_in_buffer (pf : Frame → Frame) (nf : Nat → Option Frame) (s s1 : State)
    (h : Step pf nf s s1) (hs : s.in_buffer.length ≤ BUFFER_SIZE) :
    s1.in_buffer.length ≤ BUFFER_SIZE := by
  cases h with
  | command input eof => rw [handle_input_in_buffer]; exact hs
  | read_images _ => exact (read_images_iter_in_buffer nf s).2.2.1 hs
  | assign_workers _ => exact le_trans (assign_workers_iter_in_buffer s) hs
  | task _ ht => exact taskStep_in_buffer pf nf s s1 ht hs

/-- C10: in every state reachable from the initial state by console commands, by
passes through the loops of `read_images` and `assign_workers` and by steps of posted
handlers, each taken as one atomic step, `in_buffer.size() <= BUFFER_SIZE = 20`; a
pass through the loop of `read_images` calls the frame source only when
`in_buffer.size() < 20`, calls it at most once and appends at most one frame. -/
theorem in_buffer_never_exceeds_capacity (pf : Frame → Frame) (nf : Nat → Option Frame)
    (processors : Nat) (filter : Severity) (outputDir : String) (intermediate : Bool)
    (s : State)
    (hreach : Relation.ReflTransGen (Step pf nf)
      (initial processors filter outputDir intermediate) s) :
    s.in_buffer.length ≤ BUFFER_SIZE ∧ BUFFER_SIZE = 20 ∧
    ((read_images_iter nf s).fetched ≠ s.fetched → s.in_buffer.length < 20) ∧
    (read_images_iter nf s).fetched ≤ s.fetched + 1 ∧
    (read_images_iter nf s).in_buffer.length ≤ s.in_buffer.length + 1 ∧
    (read_images_iter nf s).in_buffer.length ≤ BUFFER_SIZE := by
  have hinv : s.in_buffer.length ≤ BUFFER_SIZE := by
    induction hreach with
    | refl => simp [initial]
    | tail _ hstep ih => exact step_in_buffer pf nf _ _ hstep ih
  have hiter := read_images_iter_in_buffer nf s
  exact ⟨hinv, rfl, hiter.1, hiter.2.2.2, hiter.2.1, hiter.2.2.1 hinv⟩

/-- C10 at the state reached by `frames.start` and one pass of `read_images`. -/
theorem in_buffer_never_exceeds_capacity_witness :
    Relation.ReflTransGen (Step id (finiteSource [Frame.mk [1] []]))
      (initial 4 Severity.debug "./" false)
      (read_images_iter (finiteSource [Frame.mk [1] []])
        (handle_input "frames.start" false (initial 4 Severity.debug "./" false)).1) ∧
    (read_images_iter (finiteSource [Frame.mk [1] []])
      (handle_input "frames.start" false (initial 4 Severity.debug "./" false)).1
        ).in_buffer.length ≤ BUFFER_SIZE :=
  ⟨Relation.ReflTransGen.tail
      (Relation.ReflTransGen.tail Relation.ReflTransGen.refl
        (Step.command _ "frames.start" false))
      (Step.read_images _ (by decide)),
    (in_buffer_never_exceeds_capacity id (finiteSource [Frame.mk [1] []]) 4 Severity.debug
      "./" false _
      (Relation.ReflTransGen.tail
        (Relation.ReflTransGen.tail Relation.ReflTransGen.refl
          (Step.command _ "frames.start" false))
        (Step.read_images _ (by decide)))).1⟩

/-! ## Termination -/

theorem handle_input_frames_start (eof : Bool) (s : State) :
    (handle_input "frames.start" eof s).1 = (execute_frames_start [] s).1 := by
  have hsplit : boost_split "frames.start" = ["frames.start"] := by decide
  unfold handle_input
  rw [hsplit, dispatch_run ["frames.start"] eof s
    ⟨"frames.start", "starts fetching frames", [], execute_frames_start⟩
    (by simp [commands]) rfl rfl]
  rfl

/-- After `frames.start` the only handler ever posted is `read_images`, and once the
source has yielded a frame that frame stays in `in_buffer`. -/
theorem frames_start_invariant (pf : Frame → Frame) (nf : Nat → Option Frame)
    (processors : Nat) (filter : Severity) (outputDir : String) (intermediate : Bool)
    (f : Frame) (h0 : nf 0 = some f) (s : State)
    (hreach : Relation.ReflTransGen (TaskStep pf nf)
      (handle_input "frames.start" false
        (initial processors filter outputDir intermediate)).1 s) :
    (∀ t ∈ s.posted, t = Task.read_images) ∧
    ((s.fetched = 0 ∧ s.readingFrames = true ∧ s.in_buffer = []) ∨ s.in_buffer ≠ []) := by
  induction hreach with
  | refl =>
    rw [handle_input_frames_start]
    simp [execute_frames_start, initial, queue_work]
  | tail _ hstep ih =>
    obtain ⟨hposted, hq⟩ := ih
    cases hstep with
    | read_images_iter _ _ =>
      refine ⟨?_, ?_⟩
      · unfold read_images_iter
        split
        · split <;> exact hposted
        · exact hposted
      · rcases hq with ⟨hf, _, hb⟩ | hne
        · right
          simp [read_images_iter, hb, hf, h0, BUFFER_SIZE]
        · right
          unfold read_images_iter
          split
          · split
            · simp
            · exact hne
          · exact hne
    | read_images_return _ _ =>
      exact ⟨fun t ht => hposted t (List.mem_of_mem_erase ht), hq⟩
    | assign_workers_iter hmem _ => exact absurd (hposted _ hmem) (by simp)
    | assign_workers_return hmem _ => exact absurd (hposted _ hmem) (by simp)
    | output_iter hmem _ => exact absurd (hposted _ hmem) (by simp)
    | output_return hmem _ => exact absurd (hposted _ hmem) (by simp)
    | worker _ g latency hmem _ => exact absurd (hposted _ hmem) (by simp)

/-- C2, evaluated where it fails: when the frame source yields at least one frame, no
state the program reaches after `frames.start` from the initial state is drained.
The only handler `frames.start` posts is `read_images`; `assign_workers`, `worker`
and `output` are never posted, so the frames `read_images` pushed stay in
`in_buffer`: in every reachable state either ingestion has not begun or `in_buffer`
is non-empty. -/
theorem frames_start_never_drains (pf : Frame → Frame) (nf : Nat → Option Frame)
    (processors : Nat) (filter : Severity) (outputDir : String) (intermediate : Bool)
    (f : Frame) (h0 : nf 0 = some f) (s : State)
    (hreach : Relation.ReflTransGen (TaskStep pf nf)
      (handle_input "frames.start" false
        (initial processors filter outputDir intermediate)).1 s) :
    ¬ Drained s ∧ (s.readingFrames = false → s.in_buffer ≠ []) ∧
    (∀ t ∈ s.posted, t = Task.read_images) := by
  obtain ⟨hposted, hq⟩ :=
    frames_start_invariant pf nf processors filter outputDir intermediate f h0 s hreach
  refine ⟨?_, ?_, hposted⟩
  · intro hd
    rcases hq with ⟨_, hr, _⟩ | hne
    · rw [hd.1] at hr
      exact Bool.noConfusion hr
    · exact hne hd.2.1
  · intro hr
    rcases hq with ⟨_, hr2, _⟩ | hne
    · rw [hr] at hr2
      exact Bool.noConfusion hr2
    · exact hne

/-- C2's failure at a source of one frame: after `frames.start` and the two passes of
`read_images` that exhaust the source, ingestion has stopped and the state is not
drained. -/
theorem frames_start_never_drains_witness :
    finiteSource [Frame.mk [1] []] 0 = some (Frame.mk [1] []) ∧
    (read_images_iter (finiteSource [Frame.mk [1] []])
      (read_images_iter (finiteSource [Frame.mk [1] []])
        (handle_input "frames.start" false (initial 4 Severity.debug "./" false)).1)
      ).readingFrames = false ∧
    ¬ Drained
      (read_images_iter (finiteSource [Frame.mk [1] []])
        (read_images_iter (finiteSource [Frame.mk [1] []])
          (handle_input "frames.start" false (initial 4 Severity.debug "./" false)).1)) :=
  ⟨rfl, by decide,
    (frames_start_never_drains id (finiteSource [Frame.mk [1] []]) 4 Severity.debug "./" false
      (Frame.mk [1] []) rfl _
      (Relation.ReflTransGen.tail
        (Relation.ReflTransGen.tail Relation.ReflTransGen.refl
          (TaskStep.read_images_iter _ (by decide) (by decide)))
        (TaskStep.read_images_iter _ (by decide) (by decide)))).1⟩

/-- With `in_buffer` at capacity and ingestion on, a pass of `read_images` changes
nothing, so the loop never returns. -/
theorem read_images_full_never_returns (nf : Nat → Option Frame) (s : State)
    (hr : s.readingFrames = true) (hfull : ¬ s.in_buffer.length < BUFFER_SIZE)
    (fuel : Nat) : read_images nf fuel s = none := by
  have hiter : read_images_iter nf s = s := by
    unfold read_images_iter
    rw [if_neg hfull]
  induction fuel with
  | zero => rfl
  | succ fuel ih =>
    unfold read_images
    rw [if_pos hr, hiter]
    exact ih

/-- A source that yields no frame at all: after `frames.start`, `read_images` returns
after one pass in a drained state. -/
theorem frames_start_empty_source (nf : Nat → Option Frame) (processors : Nat)
    (filter : Severity) (outputDir : String) (intermediate : Bool) (h0 : nf 0 = none) :
    ∃ s, read_images nf 2 (handle_input "frames.start" false
        (initial processors filter outputDir intermediate)).1 = some s ∧ Drained s := by
  rw [handle_input_frames_start]
  refine ⟨read_images_iter nf
    (execute_frames_start [] (initial processors filter outputDir intermediate)).1, ?_, ?_⟩
  · simp [read_images, read_images_iter, execute_frames_start, initial, queue_work,
      BUFFER_SIZE, h0]
  · simp [Drained, read_images_iter, execute_frames_start, initial, queue_work,
      BUFFER_SIZE, h0]

/-! ## Start-up -/

theorem assignLogReader_ok {M I : Type} (k : Collaborators M I) (vm : VariablesMap)
    (g g1 : Setup M I) (h : assignLogReader k vm g = .ok g1)
    (hsel : ¬ ((!vm.telemetry.isSome && !(vm.addr.isSome && vm.port.isSome)) = true)) :
    g1.logReader ≠ none ∧ g1.importer = g.importer := by
  unfold assignLogReader at h
  cases ht : vm.telemetry with
  | some path =>
    rw [ht] at h
    dsimp only at h
    cases hk : k.newMetadataInputFile path with
    | ok m =>
      rw [hk] at h
      cases h
      simp
    | error e => rw [hk] at h; cases h
  | none =>
    rw [ht] at h hsel
    cases ha : vm.addr with
    | none => rw [ha] at hsel; simp at hsel
    | some a =>
      cases hp : vm.port with
      | none => rw [hp] at hsel; simp at hsel
      | some p =>
        rw [ha, hp] at h
        dsimp only at h
        cases hk : k.newMetadataInputNet a p with
        | ok m =>
          rw [hk] at h
          cases h
          simp
        | error e => rw [hk] at h; cases h

theorem assignImporter_ok {M I : Type} (HAS_DECKLINK : Bool) (k : Collaborators M I)
    (vm : VariablesMap) (g g2 : Setup M I)
    (h : assignImporter HAS_DECKLINK k vm g = (g2, none)) :
    g2.logReader = g.logReader ∧
    (((HAS_DECKLINK && vm.decklink) = true ∨ vm.images.isSome = true) → g2.importer ≠ none) ∧
    ((HAS_DECKLINK && vm.decklink) = false → vm.images = none → g2.importer = g.importer) := by
  unfold assignImporter at h
  by_cases hd : (HAS_DECKLINK && vm.decklink) = true
  · rw [if_pos hd] at h
    cases hk : k.newDeckLinkImport g.logReader with
    | error e => rw [hk] at h; simp at h
    | ok i =>
      rw [hk] at h
      dsimp only at h
      cases hi : vm.images with
      | none =>
        rw [hi] at h
        simp only [Prod.mk.injEq, and_true] at h
        subst h
        simp [hd]
      | some path =>
        rw [hi] at h
        dsimp only at h
        cases hp : k.newPictureImport path g.logReader with
        | error e => rw [hp] at h; simp at h
        | ok j =>
          rw [hp] at h
          simp only [Prod.mk.injEq, and_true] at h
          subst h
          simp [hd]
  · rw [if_neg hd] at h
    dsimp only at h
    cases hi : vm.images with
    | none =>
      rw [hi] at h
      simp only [Prod.mk.injEq, and_true] at h
      subst h
      simp [hd]
    | some path =>
      rw [hi] at h
      dsimp only at h
      cases hp : k.newPictureImport path g.logReader with
      | error e => rw [hp] at h; simp at h
      | ok j =>
        rw [hp] at h
        simp only [Prod.mk.injEq, and_true] at h
        subst h
        simp [hd]

/-- What a return code of 0 from `handle_args` does guarantee: exactly one frame
source was selected, `logReader` is constructed, and `importer` is constructed when
the source is the image directory or the DeckLink card; for the video device it is
left as it was. -/
theorem handle_args_accepts {M I : Type} (HAS_DECKLINK : Bool) (k : Collaborators M I)
    (vm : VariablesMap) (g : Setup M I)
    (h : (handle_args HAS_DECKLINK k (.ok vm) g).1 = 0) :
    count vm.video + countFlag (HAS_DECKLINK && vm.decklink) + count vm.images = 1 ∧
    (handle_args HAS_DECKLINK k (.ok vm) g).2.1.logReader ≠ none ∧
    (vm.video = none → (handle_args HAS_DECKLINK k (.ok vm) g).2.1.importer ≠ none) ∧
    (vm.video ≠ none → (handle_args HAS_DECKLINK k (.ok vm) g).2.1.importer = g.importer) := by
  unfold handle_args at h ⊢
  dsimp only at h ⊢
  by_cases c1 : (vm.help || vm.size == 0) = true
  · rw [if_pos c1] at h; simp at h
  rw [if_neg c1] at h ⊢
  by_cases c2 : count vm.video + countFlag (HAS_DECKLINK && vm.decklink) + count vm.images > 1
  · rw [if_pos c2] at h; simp at h
  rw [if_neg c2] at h ⊢
  by_cases c3 : (count vm.video + countFlag (HAS_DECKLINK && vm.decklink) + count vm.images == 0) = true
  · rw [if_pos c3] at h; simp at h
  rw [if_neg c3] at h ⊢
  by_cases c4 : (!vm.telemetry.isSome && !(vm.addr.isSome && vm.port.isSome)) = true
  · rw [if_pos c4] at h; simp at h
  rw [if_neg c4] at h ⊢
  have hone : count vm.video + countFlag (HAS_DECKLINK && vm.decklink) + count vm.images = 1 := by
    simp only [beq_iff_eq] at c3
    omega
  cases hl : assignLogReader k vm g with
  | error e => rw [hl] at h; simp at h
  | ok g1 =>
    rw [hl] at h
    dsimp only at h ⊢
    obtain ⟨hlog, himp⟩ := assignLogReader_ok k vm g g1 hl c4
    cases ha : assignImporter HAS_DECKLINK k vm g1 with
    | mk g2 e =>
      cases e with
      | some e => rw [ha] at h; simp at h
      | none =>
        dsimp only
        obtain ⟨h2log, h2imp, h2keep⟩ := assignImporter_ok HAS_DECKLINK k vm g1 g2 ha
        have e1 : (assignOutput vm g2).logReader = g2.logReader := by
          unfold assignOutput
          cases vm.intermediate <;> cases vm.output <;> rfl
        have e2 : (assignOutput vm g2).importer = g2.importer := by
          unfold assignOutput
          cases vm.intermediate <;> cases vm.output <;> rfl
        refine ⟨hone, ?_, ?_, ?_⟩
        · rw [e1, h2log]; exact hlog
        · intro hv
          rw [e2]
          apply h2imp
          rw [hv] at hone
          by_cases hd : (HAS_DECKLINK && vm.decklink) = true
          · exact Or.inl hd
          · right
            cases hi : vm.images with
            | some p => rfl
            | none =>
              rw [hi] at hone
              simp [count, countFlag, hd] at hone
        · intro hv
          rw [e2, ← himp]
          have hvc : count vm.video = 1 := by
            cases hv2 : vm.video with
            | none => exact absurd hv2 hv
            | some v => rfl
          rw [hvc] at hone
          have hd : (HAS_DECKLINK && vm.decklink) = false := by
            cases hdd : (HAS_DECKLINK && vm.decklink) with
            | false => rfl
            | true =>
              rw [hdd] at hone
              simp only [countFlag, if_true] at hone
              omega
          have hi : vm.images = none := by
            cases hii : vm.images with
            | none => rfl
            | some p =>
              rw [hii] at hone
              simp only [count, Option.isSome_some, if_true] at hone
              omega
          exact h2keep hd hi

/-- C9, evaluated where it fails: for the command line
`warg-cv --video 0 --telemetry log.csv`, which selects exactly one frame source (the
video device), `handle_args` returns 0 with `logReader` constructed and `importer`
still null, with and without `HAS_DECKLINK`: no branch constructs an importer for
`video`. -/
theorem video_source_leaves_importer_null :
    count videoOptions.video + countFlag videoOptions.decklink + count videoOptions.images = 1 ∧
    (handle_args false plainCollaborators (.ok videoOptions) (Setup.initial _ _)).1 = 0 ∧
    (handle_args false plainCollaborators (.ok videoOptions) (Setup.initial _ _)).2.1.importer
      = none ∧
    (handle_args false plainCollaborators (.ok videoOptions) (Setup.initial _ _)).2.1.logReader
      = some ["log.csv"] ∧
    (handle_args true plainCollaborators (.ok videoOptions) (Setup.initial _ _)).1 = 0 ∧
    (handle_args true plainCollaborators (.ok videoOptions) (Setup.initial _ _)).2.1.importer
      = none := by
  decide

end WargCV
